import Mathlib

/-!
# Verification of the Moral Foundations analyzer's scoring and aggregation core

Shallow embedding of `src/moral_foundations_analyzer.py` and
`src/generate_html_report.py`:

* `extract_numeric_value` embeds `MoralFoundationsAnalyzer._extract_numeric_value`
  (regex passes over the lowercased response text);
* `query_llm` embeds `MoralFoundationsAnalyzer.query_llm` (the external LLM
  client's behaviour is a parameter: it either returns text or raises);
* `calcStatPair` / `totalByFoundation` embed the sums of
  `HTMLReportGenerator._calculate_statistics` (the same filter-then-sum is
  performed by `_generate_summary`);
* `toJsonRecord` / `fromJsonRecord` embed the JSON persistence of
  `save_results` and the reload of `HTMLReportGenerator._load_data`;
* `update_dashboard_index` / `mkEntry` embed
  `MoralFoundationsAnalyzer.update_dashboard_index`.

Strings are lists of characters.  The Python regex character classes are
modelled over ASCII: `\b` separates word characters `[a-zA-Z0-9_]` from
the rest, `\s` is ASCII whitespace, and `str.lower` is `Char.toLower`
(the analyzer's own data is ASCII).
-/

/-- ASCII decimal digit, Python regex `\d` restricted to ASCII (codes 48-57). -/
def isDigitChar (c : Char) : Bool := 48 ≤ c.toNat && c.toNat ≤ 57

/-- A digit in the regex class `[0-5]` (codes 48-53). -/
def isDigit05 (c : Char) : Bool := 48 ≤ c.toNat && c.toNat ≤ 53

/-- Python regex word character `\w` restricted to ASCII: letter, digit or underscore. -/
def isWordChar (c : Char) : Bool :=
  isDigitChar c || (65 ≤ c.toNat && c.toNat ≤ 90) || (97 ≤ c.toNat && c.toNat ≤ 122)
    || c.toNat == 95

/-- Numeric value of a digit character. -/
def digitVal (c : Char) : Nat := c.toNat - 48

/-- Member of the regex class `[:\s]` used by the labeled patterns:
colon or ASCII whitespace (space, tab, newline, carriage return,
vertical tab, form feed). -/
def isSepChar (c : Char) : Bool :=
  c == ':' || c == ' ' || c == '\t' || c == '\n' || c == '\r'
    || c.toNat == 11 || c.toNat == 12

/-! ## Response Scorer: `_extract_numeric_value`

The Python code lowercases the response and tries, in order, the regex
patterns `\b([0-5])\b`, `rating[:\s]+([0-5])`, `score[:\s]+([0-5])`,
`value[:\s]+([0-5])`, returning the captured digit of the first pattern
that matches anywhere (at its leftmost match, per `re.search`); if none
matches it returns `-1`. -/

/-- `\b` next to a digit: the neighbouring character (if any) must not be a
word character. `none` is the start/end of the text. -/
def boundaryB : Option Char → Bool
  | none => true
  | some c => !(isWordChar c)

/-- Left-to-right scan for `\b([0-5])\b`: `prev` is the character just before
the current position.  Returns the value of the leftmost standalone digit. -/
def rule1Aux (prev : Option Char) : List Char → Option Nat
  | [] => none
  | c :: rest =>
    if isDigit05 c && boundaryB prev && boundaryB rest.head? then some (digitVal c)
    else rule1Aux (some c) rest

/-- `re.search` of `\b([0-5])\b` over the whole text. -/
def findRule1 (l : List Char) : Option Nat := rule1Aux none l

/-- Strip the literal `label` from the front of `l`; fails unless `l` starts
with `label`. -/
def stripLabel : List Char → List Char → Option (List Char)
  | [], l => some l
  | _ :: _, [] => none
  | p :: ps, c :: cs => if p == c then stripLabel ps cs else none

/-- After at least one `[:\s]` character has been consumed: keep consuming
separators; the first non-separator must be a `[0-5]` digit. (Since the two
classes are disjoint this is exactly the backtracking behaviour of
`[:\s]+([0-5])`.) -/
def sepLoop : List Char → Option Nat
  | [] => none
  | c :: cs => if isSepChar c then sepLoop cs else
      if isDigit05 c then some (digitVal c) else none

/-- Match `[:\s]+([0-5])`: one or more separators, then the digit. -/
def sepThenDigit : List Char → Option Nat
  | [] => none
  | c :: cs => if isSepChar c then sepLoop cs else none

/-- Try the pattern `label[:\s]+([0-5])` anchored at the start of `l`. -/
def tryLabelAt (label l : List Char) : Option Nat :=
  match stripLabel label l with
  | some rest => sepThenDigit rest
  | none => none

/-- `re.search` of `label[:\s]+([0-5])`: try each position left to right. -/
def findLabeled (label : List Char) : List Char → Option Nat
  | [] => tryLabelAt label []
  | c :: cs =>
    match tryLabelAt label (c :: cs) with
    | some d => some d
    | none => findLabeled label cs

def ratingLabel : List Char := ['r', 'a', 't', 'i', 'n', 'g']

def scoreLabel : List Char := ['s', 'c', 'o', 'r', 'e']

def valueLabel : List Char := ['v', 'a', 'l', 'u', 'e']

/-- Embedding of `MoralFoundationsAnalyzer._extract_numeric_value`:
lowercase the response, try the four patterns in order, first match wins,
otherwise `-1`. -/
def extract_numeric_value (response : List Char) : Int :=
  let l := response.map Char.toLower
  match findRule1 l with
  | some d => (d : Int)
  | none =>
    match findLabeled ratingLabel l with
    | some d => (d : Int)
    | none =>
      match findLabeled scoreLabel l with
      | some d => (d : Int)
      | none =>
        match findLabeled valueLabel l with
        | some d => (d : Int)
        | none => -1

/-! ## Positional characterisation of rule 1

`rule1MatchAt l i` says, by direct inspection of positions, that the regex
`\b([0-5])\b` matches the text `l` at position `i`.  We prove that
`findRule1` returns exactly the digit of the leftmost matching position. -/

/-- The character before position `i`, with `prev` standing for the character
before the whole list (none at the very start of the text). -/
def prevCharOpt (prev : Option Char) (l : List Char) (i : Nat) : Option Char :=
  match i with
  | 0 => prev
  | j + 1 => l[j]?

/-- `\b([0-5])\b` matches at position `i` of `l`, in context `prev`. -/
def rule1MatchAux (prev : Option Char) (l : List Char) (i : Nat) : Bool :=
  match l[i]? with
  | none => false
  | some c => isDigit05 c && boundaryB (prevCharOpt prev l i) && boundaryB l[i + 1]?

/-- `\b([0-5])\b` matches the text `l` at position `i`. -/
def rule1MatchAt (l : List Char) (i : Nat) : Bool := rule1MatchAux none l i

/-- No suffix of `l` starts with the labeled pattern `label[:\s]+([0-5])`. -/
def noLabeledMatch (label l : List Char) : Bool :=
  l.tails.all (fun t => (tryLabelAt label t).isNone)

/-! ## Hypothesis predicates for the scorer claims (decidable, stated on the text) -/

def optIsDigit (o : Option Char) : Bool :=
  match o with
  | some c => isDigitChar c
  | none => false

/-- Position `i` of `l` has an adjacent digit character. -/
def hasDigitNeighbor (l : List Char) (i : Nat) : Bool :=
  (match i with
   | 0 => false
   | j + 1 => optIsDigit l[j]?) || optIsDigit l[i + 1]?

/-- Every `[0-5]` digit character of the text is part of a longer numeral:
it has a digit character directly on its left or right.  Texts whose only
numerals denote numbers outside `[0,5]` — such as `"42"` or `"9"` — satisfy
this (a standalone digit would be a one-character numeral in `[0,5]`). -/
def digitsOutsideRange (l : List Char) : Bool :=
  (List.range l.length).all fun i =>
    match l[i]? with
    | some c => !isDigit05 c || hasDigitNeighbor l i
    | none => true

/-- The text contains no `[0-5]` digit character at all. -/
def noDigit05 (l : List Char) : Bool := l.all fun c => !isDigit05 c

/-! ## Data model: questions, query results and the query orchestrator

`QueryResult` is the record dictionary built by `query_llm`; the external
LLM client (`llm.invoke`) either returns response text or raises, which the
embedding passes in as an `LLMOutcome`.  The wall-clock timestamp is a
parameter. -/

structure Question where
  question : List Char
  part : Nat
  moral_foundation : List Char
  expected_output : List Char
deriving DecidableEq

structure QueryResult where
  llm : List Char
  question : List Char
  part : Nat
  moral_foundation : List Char
  response : List Char
  extracted_value : Int
  timestamp : List Char
deriving DecidableEq

/-- Behaviour of the external client's `invoke` on one call: it either
returns a message whose content is `text`, or raises an exception whose
string form is `msg`. -/
inductive LLMOutcome where
  | success : List Char → LLMOutcome
  | failure : List Char → LLMOutcome
deriving DecidableEq

/-- The `f"ERROR: {str(e)}"` string of the failure path. -/
def errorText (msg : List Char) : List Char :=
  'E' :: 'R' :: 'R' :: 'O' :: 'R' :: ':' :: ' ' :: msg

/-- Embedding of `MoralFoundationsAnalyzer.query_llm`: on success the record
carries the response text and its extracted score; on a raised exception the
record carries the error string and the `-1` sentinel.  Both paths return a
record — the exception never escapes. -/
def query_llm (llm_name : List Char) (outcome : LLMOutcome) (q : Question)
    (now : List Char) : QueryResult :=
  match outcome with
  | .success text =>
    { llm := llm_name
      question := q.question
      part := q.part
      moral_foundation := q.moral_foundation
      response := text
      extracted_value := extract_numeric_value text
      timestamp := now }
  | .failure msg =>
    { llm := llm_name
      question := q.question
      part := q.part
      moral_foundation := q.moral_foundation
      response := errorText msg
      extracted_value := -1
      timestamp := now }

/-! ## Result Aggregator

`HTMLReportGenerator._calculate_statistics` first restricts to the valid
records (`extracted_value >= 0`), then filters by model, then by foundation,
and sums `extracted_value`; `_generate_summary` performs the same
filter-then-sum.  `totalByFoundation` is the per-foundation total over all
models. -/

def calcStatPair (results : List QueryResult) (llm foundation : List Char) : Int :=
  let validDf := results.filter fun r => decide (0 ≤ r.extracted_value)
  let llmDf := validDf.filter fun r => r.llm == llm
  let foundationDf := llmDf.filter fun r => r.moral_foundation == foundation
  (foundationDf.map QueryResult.extracted_value).sum

def totalByFoundation (results : List QueryResult) (foundation : List Char) : Int :=
  let validDf := results.filter fun r => decide (0 ≤ r.extracted_value)
  ((validDf.filter fun r => r.moral_foundation == foundation).map
    QueryResult.extracted_value).sum

/-- Specification-side sum: `extracted_value` summed over exactly the records
that are valid and match both keys. -/
def sumValidMatching (results : List QueryResult) (llm foundation : List Char) : Int :=
  ((results.filter fun r =>
      decide (0 ≤ r.extracted_value) && r.llm == llm && r.moral_foundation == foundation).map
    QueryResult.extracted_value).sum

/-! ## Persistence: `save_results` / `_load_data`

`save_results` serialises the record list with `json.dump`; `_load_data`
reads it back with `json.load`.  A persisted record is a JSON object with
string fields `llm`, `question`, `moral_foundation`, `response`, `timestamp`
and integer fields `part`, `extracted_value`. -/

inductive JVal where
  | str : List Char → JVal
  | int : Int → JVal
deriving DecidableEq

def llmKey : List Char := ['l', 'l', 'm']

def questionKey : List Char := ['q', 'u', 'e', 's', 't', 'i', 'o', 'n']

def partKey : List Char := ['p', 'a', 'r', 't']

def foundationKey : List Char :=
  ['m', 'o', 'r', 'a', 'l', '_', 'f', 'o', 'u', 'n', 'd', 'a', 't', 'i', 'o', 'n']

def responseKey : List Char := ['r', 'e', 's', 'p', 'o', 'n', 's', 'e']

def extractedKey : List Char :=
  ['e', 'x', 't', 'r', 'a', 'c', 't', 'e', 'd', '_', 'v', 'a', 'l', 'u', 'e']

def timestampKey : List Char := ['t', 'i', 'm', 'e', 's', 't', 'a', 'm', 'p']

/-- One record as `json.dump` writes it. -/
def toJsonRecord (r : QueryResult) : List (List Char × JVal) :=
  [(llmKey, .str r.llm), (questionKey, .str r.question), (partKey, .int (r.part : Int)),
   (foundationKey, .str r.moral_foundation), (responseKey, .str r.response),
   (extractedKey, .int r.extracted_value), (timestampKey, .str r.timestamp)]

/-- Reading one record back from the persisted JSON object. -/
def fromJsonRecord (obj : List (List Char × JVal)) : Option QueryResult :=
  match obj.lookup llmKey, obj.lookup questionKey, obj.lookup partKey,
      obj.lookup foundationKey, obj.lookup responseKey, obj.lookup extractedKey,
      obj.lookup timestampKey with
  | some (.str llm), some (.str q), some (.int p), some (.str mf), some (.str resp),
      some (.int ev), some (.str ts) =>
    if 0 ≤ p then
      some { llm := llm, question := q, part := p.toNat, moral_foundation := mf,
             response := resp, extracted_value := ev, timestamp := ts }
    else none
  | _, _, _, _, _, _, _ => none

/-- `save_results`: the persisted JSON file is the array of record objects. -/
def save_results (results : List QueryResult) : List (List (List Char × JVal)) :=
  results.map toJsonRecord

/-- `HTMLReportGenerator._load_data`: read every record back (any malformed
record makes the load fail). -/
def load_data (file : List (List (List Char × JVal))) : Option (List QueryResult) :=
  file.mapM fromJsonRecord

/-! ## Dashboard index: `update_dashboard_index` -/

/-- Lexicographic comparison of character lists (Python string `<=`,
which on ISO-8601 timestamps is chronological order). -/
def lexLe : List Char → List Char → Bool
  | [], _ => true
  | _ :: _, [] => false
  | a :: as, b :: bs => if a < b then true else if a == b then lexLe as bs else false

/-- Python `sorted(list(set(xs)))`: distinct elements in ascending order. -/
def sortedUnique (l : List (List Char)) : List (List Char) :=
  List.insertionSort (fun a b => lexLe a b = true) l.eraseDups

/-- Content of one saved result file as seen by the index rebuild: the
`json.load` either raises (`corrupt`) or yields a record list. -/
inductive FileContent where
  | corrupt : FileContent
  | parsed : List QueryResult → FileContent
deriving DecidableEq

structure ResultFile where
  name : List Char
  content : FileContent
  mtime : Nat
deriving DecidableEq

structure IndexEntry where
  filename : List Char
  filepath : List Char
  timestamp : Option (List Char)
  llms : List (List Char)
  llm_count : Nat
  foundations : List (List Char)
  question_count : Nat
  total_responses : Nat
  valid_responses : Nat
  date_generated : Nat
deriving DecidableEq

/-- The index entry `update_dashboard_index` builds for one successfully
parsed, non-empty result file (`timestamps[0] if timestamps else None`,
`sorted(list(set(...)))`, `len(set(...))`, counts, mtime). -/
def mkEntry (name : List Char) (data : List QueryResult) (mtime : Nat) : IndexEntry :=
  let llms := sortedUnique (data.map QueryResult.llm)
  let foundations := sortedUnique (data.map QueryResult.moral_foundation)
  let timestamps := (data.map QueryResult.timestamp).filter fun t => !t.isEmpty
  let validResponses := data.filter fun r => decide (0 ≤ r.extracted_value)
  { filename := name
    filepath := '/' :: name
    timestamp := timestamps.head?
    llms := llms
    llm_count := llms.length
    foundations := foundations
    question_count := (data.map QueryResult.question).eraseDups.length
    total_responses := data.length
    valid_responses := validResponses.length
    date_generated := mtime }

/-- Embedding of `MoralFoundationsAnalyzer.update_dashboard_index` over the
already-globbed, already-ordered file list: a file whose contents cannot be
parsed is skipped (with a warning) and processing continues; an empty record
list is also skipped (`if not data: continue`). -/
def update_dashboard_index (files : List ResultFile) : List IndexEntry :=
  files.filterMap fun f =>
    match f.content with
    | .corrupt => none
    | .parsed data => if data.isEmpty then none else some (mkEntry f.name data f.mtime)

/-- The claim's (incorrect) reading of rule 1: a `[0-5]` digit whose
neighbours are merely non-digit characters (rather than non-word
characters), or which sits at the start/end of the text. -/
def digitNonDigitBounded (l : List Char) (i : Nat) : Bool :=
  match l[i]? with
  | some c =>
    isDigit05 c
      && (match i with | 0 => true | j + 1 => !optIsDigit l[j]?)
      && !optIsDigit l[i + 1]?
  | none => false

/-! ## Concrete records used by the witnesses -/

def recEarly : QueryResult :=
  { llm := ['m'], question := ['q'], part := 1, moral_foundation := ['h'],
    response := ['4'], extracted_value := 4, timestamp := ['a'] }

def recLate : QueryResult :=
  { llm := ['m'], question := ['q'], part := 2, moral_foundation := ['h'],
    response := ['2'], extracted_value := 2, timestamp := ['b'] }

def recInvalid : QueryResult :=
  { llm := ['m'], question := ['q'], part := 1, moral_foundation := ['h'],
    response := ['n', 'o'], extracted_value := -1, timestamp := ['t'] }

theorem char_toNat_toLower (c : Char) :
    c.toLower.toNat = if 65 ≤ c.toNat ∧ c.toNat ≤ 90 then c.toNat + 32 else c.toNat := by
  unfold Char.toLower
  split
  · next h =>
    rw [if_pos (by omega)]
    have hv : (c.toNat + 32).isValidChar := Or.inl (by omega)
    simp only [Char.toNat] at hv ⊢
    rw [Char.ofNat, dif_pos hv]
    simp [Char.ofNatAux, Char.toNat, UInt32.toNat, BitVec.toNat_ofNatLt]
  · next h =>
    rw [if_neg (by omega)]

theorem isDigitChar_toLower (c : Char) : isDigitChar c.toLower = isDigitChar c := by
  simp only [isDigitChar, char_toNat_toLower]
  split
  · next h =>
    have h1 : ¬ (c.toNat + 32 ≤ 57) := by omega
    have h2 : ¬ (c.toNat ≤ 57) := by omega
    simp [h1, h2]
  · rfl

theorem isDigit05_toLower (c : Char) : isDigit05 c.toLower = isDigit05 c := by
  simp only [isDigit05, char_toNat_toLower]
  split
  · next h =>
    have h1 : ¬ (c.toNat + 32 ≤ 53) := by omega
    have h2 : ¬ (c.toNat ≤ 53) := by omega
    simp [h1, h2]
  · rfl

theorem isWordChar_toLower (c : Char) : isWordChar c.toLower = isWordChar c := by
  simp only [isWordChar, isDigitChar, char_toNat_toLower]
  split
  · next h =>
    rw [Bool.eq_iff_iff]
    simp only [Bool.or_eq_true, Bool.and_eq_true, decide_eq_true_eq, beq_iff_eq]
    constructor <;> intro h' <;> omega
  · rfl

theorem digitVal_toLower_of_digit (c : Char) (h : isDigitChar c = true) :
    digitVal c.toLower = digitVal c := by
  simp only [isDigitChar, Bool.and_eq_true, decide_eq_true_eq] at h
  simp [digitVal, char_toNat_toLower, if_neg (by omega : ¬(65 ≤ c.toNat ∧ c.toNat ≤ 90))]

theorem rule1MatchAux_zero (prev : Option Char) (c : Char) (rest : List Char) :
    rule1MatchAux prev (c :: rest) 0
      = (isDigit05 c && boundaryB prev && boundaryB rest.head?) := by
  simp [rule1MatchAux, prevCharOpt, List.getElem?_cons_zero, List.getElem?_cons_succ,
    List.head?_eq_getElem?]

theorem rule1MatchAux_succ (prev : Option Char) (c : Char) (rest : List Char) (i : Nat) :
    rule1MatchAux prev (c :: rest) (i + 1) = rule1MatchAux (some c) rest i := by
  simp only [rule1MatchAux, List.getElem?_cons_succ]
  cases rest[i]? with
  | none => rfl
  | some d =>
    have hprev : prevCharOpt prev (c :: rest) (i + 1) = prevCharOpt (some c) rest i := by
      cases i with
      | zero => simp [prevCharOpt, List.getElem?_cons_zero]
      | succ j => simp [prevCharOpt, List.getElem?_cons_succ]
    rw [hprev]

/-- `rule1Aux` returns the digit of the leftmost position where rule 1 matches. -/
theorem rule1Aux_eq_of_leftmost (l : List Char) (prev : Option Char) (i : Nat) (c : Char)
    (hc : l[i]? = some c) (hm : rule1MatchAux prev l i = true)
    (hmin : ∀ j, j < i → rule1MatchAux prev l j = false) :
    rule1Aux prev l = some (digitVal c) := by
  induction l generalizing prev i with
  | nil => simp at hc
  | cons a rest ih =>
    cases i with
    | zero =>
      rw [List.getElem?_cons_zero] at hc
      cases hc
      rw [rule1MatchAux_zero] at hm
      simp [rule1Aux, hm]
    | succ k =>
      have h0 : rule1MatchAux prev (a :: rest) 0 = false := hmin 0 (Nat.succ_pos k)
      rw [rule1MatchAux_zero] at h0
      rw [List.getElem?_cons_succ] at hc
      rw [rule1MatchAux_succ] at hm
      simp only [rule1Aux, h0, if_false]
      exact ih (some a) k hc hm (fun j hj => by
        have := hmin (j + 1) (Nat.succ_lt_succ hj)
        rwa [rule1MatchAux_succ] at this)

/-- If rule 1 matches nowhere, `rule1Aux` finds nothing. -/
theorem rule1Aux_eq_none (l : List Char) (prev : Option Char)
    (h : ∀ j, rule1MatchAux prev l j = false) :
    rule1Aux prev l = none := by
  induction l generalizing prev with
  | nil => rfl
  | cons a rest ih =>
    have h0 := h 0
    rw [rule1MatchAux_zero] at h0
    simp only [rule1Aux, h0, if_false]
    exact ih (some a) (fun j => by
      have := h (j + 1)
      rwa [rule1MatchAux_succ] at this)

theorem boundaryB_map_toLower (o : Option Char) :
    boundaryB (o.map Char.toLower) = boundaryB o := by
  cases o with
  | none => rfl
  | some c => simp [boundaryB, isWordChar_toLower]

/-- Lowercasing the text does not change where rule 1 matches. -/
theorem rule1MatchAux_map_toLower (prev : Option Char) (l : List Char) (i : Nat) :
    rule1MatchAux (prev.map Char.toLower) (l.map Char.toLower) i = rule1MatchAux prev l i := by
  simp only [rule1MatchAux, List.getElem?_map]
  cases hc : l[i]? with
  | none => rfl
  | some c =>
    have hprev : prevCharOpt (prev.map Char.toLower) (l.map Char.toLower) i
        = (prevCharOpt prev l i).map Char.toLower := by
      cases i with
      | zero => rfl
      | succ j => simp [prevCharOpt, List.getElem?_map]
    simp only [Option.map_some', hprev, boundaryB_map_toLower, isDigit05_toLower,
      List.getElem?_map]

theorem rule1MatchAt_map_toLower (l : List Char) (i : Nat) :
    rule1MatchAt (l.map Char.toLower) i = rule1MatchAt l i := by
  have := rule1MatchAux_map_toLower none l i
  simpa [rule1MatchAt] using this

/-! ## Range and emptiness lemmas for the finders -/

theorem isDigitChar_of_isDigit05 (c : Char) (h : isDigit05 c = true) : isDigitChar c = true := by
  simp only [isDigit05, Bool.and_eq_true, decide_eq_true_eq] at h
  simp only [isDigitChar, Bool.and_eq_true, decide_eq_true_eq]
  omega

theorem isWordChar_of_isDigitChar (c : Char) (h : isDigitChar c = true) : isWordChar c = true := by
  simp [isWordChar, h]

theorem digitVal_le_five (c : Char) (h : isDigit05 c = true) : digitVal c ≤ 5 := by
  simp only [isDigit05, Bool.and_eq_true, decide_eq_true_eq] at h
  simp only [digitVal]
  omega

theorem rule1Aux_bound (l : List Char) (prev : Option Char) (d : Nat)
    (h : rule1Aux prev l = some d) : d ≤ 5 := by
  induction l generalizing prev with
  | nil => simp [rule1Aux] at h
  | cons c rest ih =>
    simp only [rule1Aux] at h
    split at h
    · next hcond =>
      cases h
      simp only [Bool.and_eq_true] at hcond
      exact digitVal_le_five c hcond.1.1
    · exact ih (some c) h

theorem sepLoop_bound (l : List Char) (d : Nat) (h : sepLoop l = some d) : d ≤ 5 := by
  induction l with
  | nil => simp [sepLoop] at h
  | cons c rest ih =>
    simp only [sepLoop] at h
    split at h
    · exact ih h
    · split at h
      · next hd =>
        cases h
        exact digitVal_le_five c hd
      · simp at h

theorem sepThenDigit_bound (l : List Char) (d : Nat) (h : sepThenDigit l = some d) : d ≤ 5 := by
  cases l with
  | nil => simp [sepThenDigit] at h
  | cons c rest =>
    simp only [sepThenDigit] at h
    split at h
    · exact sepLoop_bound rest d h
    · simp at h

theorem tryLabelAt_bound (label l : List Char) (d : Nat)
    (h : tryLabelAt label l = some d) : d ≤ 5 := by
  simp only [tryLabelAt] at h
  split at h
  · next rest _ => exact sepThenDigit_bound rest d h
  · simp at h

theorem findLabeled_bound (label l : List Char) (d : Nat)
    (h : findLabeled label l = some d) : d ≤ 5 := by
  induction l with
  | nil => exact tryLabelAt_bound label [] d h
  | cons c rest ih =>
    simp only [findLabeled] at h
    cases htl : tryLabelAt label (c :: rest) with
    | some e => rw [htl] at h; cases h; exact tryLabelAt_bound label (c :: rest) d htl
    | none => rw [htl] at h; exact ih h

/-- A successful rule-1 scan requires a `[0-5]` digit somewhere in the text. -/
theorem rule1Aux_some_mem (l : List Char) (prev : Option Char) (d : Nat)
    (h : rule1Aux prev l = some d) : ∃ c ∈ l, isDigit05 c = true := by
  induction l generalizing prev with
  | nil => simp [rule1Aux] at h
  | cons c rest ih =>
    simp only [rule1Aux] at h
    split at h
    · next hcond =>
      simp only [Bool.and_eq_true] at hcond
      exact ⟨c, List.mem_cons_self c rest, hcond.1.1⟩
    · obtain ⟨c', hc', hd'⟩ := ih (some c) h
      exact ⟨c', List.mem_cons_of_mem c hc', hd'⟩

theorem stripLabel_mem (label l rest : List Char) (h : stripLabel label l = some rest) :
    ∀ c ∈ rest, c ∈ l := by
  induction label generalizing l with
  | nil =>
    simp only [stripLabel] at h
    cases h
    exact fun c hc => hc
  | cons p ps ih =>
    cases l with
    | nil => simp [stripLabel] at h
    | cons a as =>
      simp only [stripLabel] at h
      split at h
      · exact fun c hc => List.mem_cons_of_mem a (ih as h c hc)
      · simp at h

theorem sepLoop_some_mem (l : List Char) (d : Nat) (h : sepLoop l = some d) :
    ∃ c ∈ l, isDigit05 c = true := by
  induction l with
  | nil => simp [sepLoop] at h
  | cons c rest ih =>
    simp only [sepLoop] at h
    split at h
    · obtain ⟨c', hc', hd'⟩ := ih h
      exact ⟨c', List.mem_cons_of_mem c hc', hd'⟩
    · split at h
      · next hd => exact ⟨c, List.mem_cons_self c rest, hd⟩
      · simp at h

theorem sepThenDigit_some_mem (l : List Char) (d : Nat) (h : sepThenDigit l = some d) :
    ∃ c ∈ l, isDigit05 c = true := by
  cases l with
  | nil => simp [sepThenDigit] at h
  | cons c rest =>
    simp only [sepThenDigit] at h
    split at h
    · obtain ⟨c', hc', hd'⟩ := sepLoop_some_mem rest d h
      exact ⟨c', List.mem_cons_of_mem c hc', hd'⟩
    · simp at h

theorem tryLabelAt_some_mem (label l : List Char) (d : Nat)
    (h : tryLabelAt label l = some d) : ∃ c ∈ l, isDigit05 c = true := by
  simp only [tryLabelAt] at h
  split at h
  · next rest hrest =>
    obtain ⟨c', hc', hd'⟩ := sepThenDigit_some_mem rest d h
    exact ⟨c', stripLabel_mem label l rest hrest c' hc', hd'⟩
  · simp at h

theorem findLabeled_some_mem (label l : List Char) (d : Nat)
    (h : findLabeled label l = some d) : ∃ c ∈ l, isDigit05 c = true := by
  induction l with
  | nil => exact tryLabelAt_some_mem label [] d h
  | cons c rest ih =>
    simp only [findLabeled] at h
    cases htl : tryLabelAt label (c :: rest) with
    | some e =>
      rw [htl] at h
      cases h
      exact tryLabelAt_some_mem label (c :: rest) d htl
    | none =>
      rw [htl] at h
      obtain ⟨c', hc', hd'⟩ := ih h
      exact ⟨c', List.mem_cons_of_mem c hc', hd'⟩

theorem findLabeled_eq_none_of_noMatch (label l : List Char)
    (h : noLabeledMatch label l = true) : findLabeled label l = none := by
  induction l with
  | nil =>
    simp only [noLabeledMatch, List.tails, List.all_cons, List.all_nil,
      Bool.and_true] at h
    simpa [findLabeled, Option.isNone_iff_eq_none] using h
  | cons c rest ih =>
    simp only [noLabeledMatch, List.tails_cons, List.all_cons, Bool.and_eq_true] at h
    have h1 : tryLabelAt label (c :: rest) = none := by
      simpa [Option.isNone_iff_eq_none] using h.1
    simp only [findLabeled, h1]
    exact ih h.2

/-! ## Unfolding facts about `extract_numeric_value` -/

theorem extract_eq_of_findRule1 (s : List Char) (d : Nat)
    (h : findRule1 (s.map Char.toLower) = some d) :
    extract_numeric_value s = (d : Int) := by
  simp only [extract_numeric_value, h]

theorem extract_eq_neg_one_iff (s : List Char) :
    extract_numeric_value s = -1 ↔
      (findRule1 (s.map Char.toLower) = none
        ∧ findLabeled ratingLabel (s.map Char.toLower) = none
        ∧ findLabeled scoreLabel (s.map Char.toLower) = none
        ∧ findLabeled valueLabel (s.map Char.toLower) = none) := by
  simp only [extract_numeric_value]
  cases h1 : findRule1 (s.map Char.toLower) with
  | some d => simp [h1]
  | none =>
    cases h2 : findLabeled ratingLabel (s.map Char.toLower) with
    | some d => simp [h2]
    | none =>
      cases h3 : findLabeled scoreLabel (s.map Char.toLower) with
      | some d => simp [h3]
      | none =>
        cases h4 : findLabeled valueLabel (s.map Char.toLower) with
        | some d => simp [h4]
        | none => simp [h4]

theorem rule1MatchAux_false_of_digitsOutside (s : List Char)
    (h : digitsOutsideRange s = true) (j : Nat) :
    rule1MatchAux none s j = false := by
  cases hc : s[j]? with
  | none => simp [rule1MatchAux, hc]
  | some c =>
    simp only [rule1MatchAux, hc]
    by_contra hm
    simp only [Bool.not_eq_false, Bool.and_eq_true] at hm
    obtain ⟨⟨hd, hpb⟩, hnb⟩ := hm
    have hj : j < s.length := by
      by_contra hj
      rw [List.getElem?_eq_none (Nat.le_of_not_lt hj)] at hc
      exact Option.noConfusion hc
    have hall := (List.all_eq_true.mp h) j (List.mem_range.mpr hj)
    simp only [hc, Bool.or_eq_true, Bool.not_eq_true'] at hall
    rcases hall with hfalse | hnbr
    · rw [hd] at hfalse
      exact Bool.noConfusion hfalse
    · simp only [hasDigitNeighbor, Bool.or_eq_true] at hnbr
      rcases hnbr with hleft | hright
      · cases j with
        | zero => exact Bool.noConfusion hleft
        | succ k =>
          have hleft' : optIsDigit s[k]? = true := hleft
          cases hp : s[k]? with
          | none => rw [hp] at hleft'; exact Bool.noConfusion hleft'
          | some p =>
            rw [hp] at hleft'
            simp only [optIsDigit] at hleft'
            have : boundaryB (prevCharOpt none s (k + 1)) = false := by
              simp [prevCharOpt, hp, boundaryB, isWordChar_of_isDigitChar p hleft']
            rw [this] at hpb
            exact Bool.noConfusion hpb
      · cases hn : s[j + 1]? with
        | none => rw [hn] at hright; exact Bool.noConfusion hright
        | some n =>
          rw [hn] at hright
          simp only [optIsDigit] at hright
          have : boundaryB s[j + 1]? = false := by
            simp [hn, boundaryB, isWordChar_of_isDigitChar n hright]
          rw [this] at hnb
          exact Bool.noConfusion hnb

theorem findRule1_eq_none_of_digitsOutside (s : List Char)
    (h : digitsOutsideRange s = true) :
    findRule1 (s.map Char.toLower) = none := by
  apply rule1Aux_eq_none
  intro j
  have := rule1MatchAux_map_toLower none s j
  simp only [Option.map_none'] at this
  rw [this]
  exact rule1MatchAux_false_of_digitsOutside s h j

theorem findRule1_eq_none_of_noDigit05 (s : List Char)
    (h : noDigit05 s = true) :
    findRule1 (s.map Char.toLower) = none := by
  cases hr : findRule1 (s.map Char.toLower) with
  | none => rfl
  | some d =>
    obtain ⟨c', hc', hd'⟩ := rule1Aux_some_mem _ none d hr
    obtain ⟨c, hc, rfl⟩ := List.mem_map.mp hc'
    rw [isDigit05_toLower] at hd'
    have := (List.all_eq_true.mp h) c hc
    rw [hd'] at this
    exact Bool.noConfusion this

theorem findLabeled_eq_none_of_noDigit05 (label : List Char) (s : List Char)
    (h : noDigit05 s = true) :
    findLabeled label (s.map Char.toLower) = none := by
  cases hr : findLabeled label (s.map Char.toLower) with
  | none => rfl
  | some d =>
    obtain ⟨c', hc', hd'⟩ := findLabeled_some_mem label _ d hr
    obtain ⟨c, hc, rfl⟩ := List.mem_map.mp hc'
    rw [isDigit05_toLower] at hd'
    have := (List.all_eq_true.mp h) c hc
    rw [hd'] at this
    exact Bool.noConfusion this

theorem isDigit05_of_matchAux (prev : Option Char) (l : List Char) (i : Nat) (c : Char)
    (hc : l[i]? = some c) (hm : rule1MatchAux prev l i = true) : isDigit05 c = true := by
  simp only [rule1MatchAux, hc, Bool.and_eq_true] at hm
  exact hm.1.1

/-- The scorer returns the digit of the leftmost position of the response at
which rule 1 (`\b([0-5])\b`) matches, whatever the rest of the text holds. -/
theorem extract_of_rule1_leftmost (s : List Char) (i : Nat) (c : Char)
    (hc : s[i]? = some c) (hm : rule1MatchAt s i = true)
    (hmin : ∀ j, j < i → rule1MatchAt s j = false) :
    extract_numeric_value s = (digitVal c : Int) := by
  have hc' : (s.map Char.toLower)[i]? = some c.toLower := by
    rw [List.getElem?_map, hc, Option.map_some']
  have hm' : rule1MatchAux none (s.map Char.toLower) i = true := by
    show rule1MatchAt (s.map Char.toLower) i = true
    rw [rule1MatchAt_map_toLower]; exact hm
  have hmin' : ∀ j, j < i → rule1MatchAux none (s.map Char.toLower) j = false := by
    intro j hj
    show rule1MatchAt (s.map Char.toLower) j = false
    rw [rule1MatchAt_map_toLower]
    exact hmin j hj
  have hfind : findRule1 (s.map Char.toLower) = some (digitVal c.toLower) :=
    rule1Aux_eq_of_leftmost (s.map Char.toLower) none i c.toLower hc' hm' hmin'
  have hd : isDigit05 c = true := isDigit05_of_matchAux none s i c hc hm
  rw [extract_eq_of_findRule1 s _ hfind,
    digitVal_toLower_of_digit c (isDigitChar_of_isDigit05 c hd)]

/-! ## Shared helper lemmas for the claims -/

theorem extract_range (s : List Char) :
    extract_numeric_value s = -1
      ∨ (0 ≤ extract_numeric_value s ∧ extract_numeric_value s ≤ 5) := by
  simp only [extract_numeric_value]
  cases h1 : findRule1 (s.map Char.toLower) with
  | some d =>
    refine Or.inr ⟨Int.natCast_nonneg d, ?_⟩
    show (d : Int) ≤ 5
    exact_mod_cast rule1Aux_bound _ none d h1
  | none =>
    cases h2 : findLabeled ratingLabel (s.map Char.toLower) with
    | some d =>
      refine Or.inr ⟨Int.natCast_nonneg d, ?_⟩
      show (d : Int) ≤ 5
      exact_mod_cast findLabeled_bound _ _ d h2
    | none =>
      cases h3 : findLabeled scoreLabel (s.map Char.toLower) with
      | some d =>
        refine Or.inr ⟨Int.natCast_nonneg d, ?_⟩
        show (d : Int) ≤ 5
        exact_mod_cast findLabeled_bound _ _ d h3
      | none =>
        cases h4 : findLabeled valueLabel (s.map Char.toLower) with
        | some d =>
          refine Or.inr ⟨Int.natCast_nonneg d, ?_⟩
          show (d : Int) ≤ 5
          exact_mod_cast findLabeled_bound _ _ d h4
        | none => exact Or.inl rfl

theorem fromJson_toJson (r : QueryResult) : fromJsonRecord (toJsonRecord r) = some r := by
  cases r with
  | mk llm q p mf resp ev ts =>
    simp [toJsonRecord, fromJsonRecord, List.lookup, llmKey, questionKey, partKey,
      foundationKey, responseKey, extractedKey, timestampKey, Int.toNat_ofNat]

theorem load_save_id (results : List QueryResult) :
    load_data (save_results results) = some results := by
  simp only [load_data, save_results]
  induction results with
  | nil => rfl
  | cons r rs ih =>
    rw [List.map_cons, List.mapM_cons, fromJson_toJson, ih]
    rfl

theorem calcStatPair_eq_sum (results : List QueryResult) (m f : List Char) :
    calcStatPair results m f = sumValidMatching results m f := by
  simp only [calcStatPair, sumValidMatching, List.filter_filter]
  congr 1
  apply congrArg
  apply List.filter_congr
  intro r _
  cases h1 : decide (0 ≤ r.extracted_value) <;> cases h2 : (r.llm == m) <;>
    cases h3 : (r.moral_foundation == f) <;> rfl

theorem sumValid_perm (l l' : List QueryResult) (m f : List Char) (h : l.Perm l') :
    sumValidMatching l m f = sumValidMatching l' m f :=
  ((h.filter _).map _).sum_eq

theorem lexLe_refl (l : List Char) : lexLe l l = true := by
  induction l with
  | nil => rfl
  | cons a as ih =>
    simp only [lexLe]
    have h1 : ¬ (a < a) := lt_irrefl a
    simp [h1, ih]

/-! ## The claims -/

/-- C1: if rule 1 (`\b([0-5])\b`) matches the response anywhere — leftmost
match at position `i` with digit `c` — and some labeled
`rating:/score:/value:` pattern elsewhere yields a different digit `d`, the
scorer returns the rule-1 digit and not the labeled one; in particular
"I'd say 3, though my rating: 5" yields 3 (see the witness). -/
theorem C1_rule1_precedence :
    ∀ (s : List Char) (i : Nat) (c : Char) (d : Nat),
      s[i]? = some c → rule1MatchAt s i = true →
      (∀ j, j < i → rule1MatchAt s j = false) →
      (findLabeled ratingLabel (s.map Char.toLower) = some d
        ∨ findLabeled scoreLabel (s.map Char.toLower) = some d
        ∨ findLabeled valueLabel (s.map Char.toLower) = some d) →
      d ≠ digitVal c →
      extract_numeric_value s = (digitVal c : Int)
        ∧ extract_numeric_value s ≠ (d : Int) := by
  intro s i c d hc hm hmin _ hne
  have h1 := extract_of_rule1_leftmost s i c hc hm hmin
  refine ⟨h1, ?_⟩
  rw [h1]
  intro heq
  exact hne (by exact_mod_cast heq.symm)

theorem C1_witness :
    extract_numeric_value ("I\x27d say 3, though my rating: 5".toList) = 3
      ∧ extract_numeric_value ("I\x27d say 3, though my rating: 5".toList) ≠ 5 := by
  have h := C1_rule1_precedence ("I\x27d say 3, though my rating: 5".toList) 8 '3' 5
    (by decide) (by decide) (by decide) (Or.inl (by decide)) (by decide)
  constructor
  · rw [h.1]; decide
  · intro heq
    apply h.2
    rw [heq]; decide

/-- C2 counterexample: the text "a3" contains the digit 3 in `[0,5]` bounded
by a non-digit character on the left and the end of the text on the right
(and it is the leftmost — indeed only — such digit), yet the scorer returns
-1, not 3: `\b` requires non-word neighbours and the letter `a` is a word
character.  This refutes the claim as stated. -/
theorem C2_counterexample :
    digitNonDigitBounded ("a3".toList) 1 = true
      ∧ (∀ j, j < 1 → digitNonDigitBounded ("a3".toList) j = false)
      ∧ digitVal '3' = 3
      ∧ extract_numeric_value ("a3".toList) = -1
      ∧ extract_numeric_value ("a3".toList) ≠ 3 := by decide

/-- C2 (amended): for every text containing a digit 0-5 bounded on both
sides by non-WORD characters (anything other than an ASCII letter, digit or
underscore) or by the start/end of the text — i.e. at which rule 1 matches —
the scorer returns the leftmost such digit; in particular a text whose only
digit is such a digit yields exactly that digit. -/
theorem C2_leftmost_word_bounded :
    ∀ (s : List Char) (i : Nat) (c : Char),
      s[i]? = some c → rule1MatchAt s i = true →
      (∀ j, j < i → rule1MatchAt s j = false) →
      extract_numeric_value s = (digitVal c : Int) :=
  extract_of_rule1_leftmost

theorem C2_witness :
    extract_numeric_value ("i choose 4.".toList) = 4 := by
  have h := C2_leftmost_word_bounded ("i choose 4.".toList) 9 '4'
    (by decide) (by decide) (by decide)
  rw [h]; decide

/-- C3: the scorer returns -1 exactly when none of the four rules matches;
the empty string yields -1; a text each of whose `[0-5]` digits is part of a
longer numeral (so its only numbers lie outside `[0,5]`, e.g. "42", "9")
and with no labeled `rating:/score:/value:` pattern yields -1; and a text
with no `[0-5]` digit at all and no labeled pattern yields -1. -/
theorem C3_sentinel :
    (∀ s : List Char,
      extract_numeric_value s = -1 ↔
        (findRule1 (s.map Char.toLower) = none
          ∧ findLabeled ratingLabel (s.map Char.toLower) = none
          ∧ findLabeled scoreLabel (s.map Char.toLower) = none
          ∧ findLabeled valueLabel (s.map Char.toLower) = none))
    ∧ extract_numeric_value [] = -1
    ∧ (∀ s : List Char, digitsOutsideRange s = true →
        noLabeledMatch ratingLabel (s.map Char.toLower) = true →
        noLabeledMatch scoreLabel (s.map Char.toLower) = true →
        noLabeledMatch valueLabel (s.map Char.toLower) = true →
        extract_numeric_value s = -1)
    ∧ (∀ s : List Char, noDigit05 s = true →
        noLabeledMatch ratingLabel (s.map Char.toLower) = true →
        noLabeledMatch scoreLabel (s.map Char.toLower) = true →
        noLabeledMatch valueLabel (s.map Char.toLower) = true →
        extract_numeric_value s = -1) := by
  refine ⟨extract_eq_neg_one_iff, by decide, ?_, ?_⟩
  · intro s hd hr hs hv
    rw [extract_eq_neg_one_iff]
    exact ⟨findRule1_eq_none_of_digitsOutside s hd,
      findLabeled_eq_none_of_noMatch _ _ hr,
      findLabeled_eq_none_of_noMatch _ _ hs,
      findLabeled_eq_none_of_noMatch _ _ hv⟩
  · intro s hd hr hs hv
    rw [extract_eq_neg_one_iff]
    exact ⟨findRule1_eq_none_of_noDigit05 s hd,
      findLabeled_eq_none_of_noMatch _ _ hr,
      findLabeled_eq_none_of_noMatch _ _ hs,
      findLabeled_eq_none_of_noMatch _ _ hv⟩

theorem C3_witness :
    extract_numeric_value ("42".toList) = -1
      ∧ extract_numeric_value ("9".toList) = -1
      ∧ extract_numeric_value ("no rating given".toList) = -1 :=
  ⟨C3_sentinel.2.2.1 _ (by decide) (by decide) (by decide) (by decide),
   C3_sentinel.2.2.2 _ (by decide) (by decide) (by decide) (by decide),
   C3_sentinel.2.2.2 _ (by decide) (by decide) (by decide) (by decide)⟩

/-- C4: the scorer only ever returns an integer in `[0,5]` or exactly -1,
and every record built by `query_llm` — on the success path as well as the
failure path — has its `extracted_value` in `[0,5]` or equal to -1. -/
theorem C4_range_invariant :
    (∀ s : List Char,
      extract_numeric_value s = -1
        ∨ (0 ≤ extract_numeric_value s ∧ extract_numeric_value s ≤ 5))
    ∧ (∀ (name : List Char) (outcome : LLMOutcome) (q : Question) (now : List Char),
        (query_llm name outcome q now).extracted_value = -1
          ∨ (0 ≤ (query_llm name outcome q now).extracted_value
              ∧ (query_llm name outcome q now).extracted_value ≤ 5)) := by
  refine ⟨extract_range, ?_⟩
  intro name outcome q now
  cases outcome with
  | success text => exact extract_range text
  | failure msg => exact Or.inl rfl

/-- C5: when the client's `invoke` raises, `query_llm` returns (never
raises) a record whose `extracted_value` is -1, whose response text is the
error-describing string `ERROR: <message>`, and whose `llm`, `question`,
`part` and `moral_foundation` fields are those of the query. -/
theorem C5_failure_captured :
    ∀ (name : List Char) (q : Question) (msg now : List Char),
      (query_llm name (.failure msg) q now).extracted_value = -1
        ∧ (query_llm name (.failure msg) q now).response = errorText msg
        ∧ (query_llm name (.failure msg) q now).llm = name
        ∧ (query_llm name (.failure msg) q now).question = q.question
        ∧ (query_llm name (.failure msg) q now).part = q.part
        ∧ (query_llm name (.failure msg) q now).moral_foundation = q.moral_foundation :=
  fun _ _ _ _ => ⟨rfl, rfl, rfl, rfl, rfl, rfl⟩

/-- C10 (implicit): a `[0-5]` digit neighboured by non-word punctuation such
as `.` or `-` still matches rule 1, so "4.5" yields 4 and "-3" yields 3
instead of the unparseable sentinel -1. -/
theorem C10_punctuation_boundaries :
    extract_numeric_value ("4.5".toList) = 4
      ∧ extract_numeric_value ("-3".toList) = 3
      ∧ extract_numeric_value ("4.5".toList) ≠ -1
      ∧ extract_numeric_value ("-3".toList) ≠ -1
      ∧ isWordChar '.' = false
      ∧ isWordChar '-' = false
      ∧ rule1MatchAt ("4.5".toList) 0 = true
      ∧ rule1MatchAt ("-3".toList) 1 = true := by decide

/-- C6: the per-model/per-foundation sum of the aggregator equals the sum of
`extracted_value` over exactly the valid (`≥ 0`) records matching both keys,
is 0 when no record matches, and is invariant under permutation of the
record list. -/
theorem C6_aggregation :
    (∀ (results : List QueryResult) (m f : List Char),
      calcStatPair results m f = sumValidMatching results m f)
    ∧ (∀ (results : List QueryResult) (m f : List Char),
        (∀ r ∈ results,
          (decide (0 ≤ r.extracted_value) && r.llm == m && r.moral_foundation == f)
            = false) →
        calcStatPair results m f = 0)
    ∧ (∀ (l l' : List QueryResult) (m f : List Char), l.Perm l' →
        calcStatPair l m f = calcStatPair l' m f) := by
  refine ⟨calcStatPair_eq_sum, ?_, ?_⟩
  · intro results m f h
    rw [calcStatPair_eq_sum]
    have hnil : (results.filter fun r =>
        decide (0 ≤ r.extracted_value) && r.llm == m && r.moral_foundation == f) = [] :=
      List.filter_eq_nil_iff.mpr (fun a ha => by simp [h a ha])
    simp only [sumValidMatching, hnil]
    rfl
  · intro l l' m f hperm
    rw [calcStatPair_eq_sum, calcStatPair_eq_sum]
    exact sumValid_perm l l' m f hperm

theorem C6_witness :
    calcStatPair [recInvalid] ['m'] ['h'] = 0
      ∧ calcStatPair [recEarly, recLate] ['m'] ['h']
          = calcStatPair [recLate, recEarly] ['m'] ['h'] :=
  ⟨C6_aggregation.2.1 [recInvalid] ['m'] ['h'] (by decide),
   C6_aggregation.2.2 [recEarly, recLate] [recLate, recEarly] ['m'] ['h'] (by decide)⟩

/-- C7: serialising a record list to the persisted JSON format
(`save_results`) and reloading it (`_load_data`) yields a record list with
identical per-model/per-foundation and per-foundation aggregate sums. -/
theorem C7_roundtrip :
    ∀ results : List QueryResult,
      ∃ loaded, load_data (save_results results) = some loaded
        ∧ (∀ m f : List Char, calcStatPair loaded m f = calcStatPair results m f)
        ∧ (∀ f : List Char, totalByFoundation loaded f = totalByFoundation results f) :=
  fun results => ⟨results, load_save_id results, fun _ _ => rfl, fun _ => rfl⟩

/-- C8: a result file whose contents cannot be parsed contributes no index
entry and does not stop the rebuild; over one well-formed non-empty file and
one corrupt file (in either order) the index has exactly the one entry of
the good file. -/
theorem C8_corrupt_skipped :
    (∀ (pre post : List ResultFile) (name : List Char) (mtime : Nat),
      update_dashboard_index (pre ++ ⟨name, .corrupt, mtime⟩ :: post)
        = update_dashboard_index (pre ++ post))
    ∧ (∀ (name1 : List Char) (data1 : List QueryResult) (m1 : Nat)
        (name2 : List Char) (m2 : Nat), data1 ≠ [] →
        (update_dashboard_index [⟨name1, .parsed data1, m1⟩, ⟨name2, .corrupt, m2⟩]
            = [mkEntry name1 data1 m1]
          ∧ update_dashboard_index [⟨name2, .corrupt, m2⟩, ⟨name1, .parsed data1, m1⟩]
            = [mkEntry name1 data1 m1]
          ∧ (update_dashboard_index
              [⟨name1, .parsed data1, m1⟩, ⟨name2, .corrupt, m2⟩]).length = 1)) := by
  constructor
  · intro pre post name mtime
    simp [update_dashboard_index, List.filterMap_append, List.filterMap_cons]
  · intro name1 data1 m1 name2 m2 hne
    refine ⟨?_, ?_, ?_⟩ <;> simp [update_dashboard_index, List.filterMap_cons, hne]

theorem C8_witness :
    update_dashboard_index [⟨['g'], .parsed [recEarly], 3⟩, ⟨['h'], .corrupt, 4⟩]
        = [mkEntry ['g'] [recEarly] 3]
      ∧ (update_dashboard_index
          [⟨['g'], .parsed [recEarly], 3⟩, ⟨['h'], .corrupt, 4⟩]).length = 1 := by
  have h := C8_corrupt_skipped.2 ['g'] [recEarly] 3 ['h'] 4 (by decide)
  exact ⟨h.1, h.2.2⟩

/-- C9 counterexample: in a well-formed file whose records carry timestamps
"b" then "a" (descending), the index entry's timestamp is `timestamps[0]`,
i.e. `some "b"` — the timestamp of the first record — although the minimum
timestamp present is "a" (`lexLe "a" "b"` and not `lexLe "b" "a"`).  The
entry's timestamp is therefore not the earliest one, refuting the claim. -/
theorem C9_counterexample :
    (mkEntry ['f'] [recLate, recEarly] 0).timestamp = some ['b']
      ∧ update_dashboard_index [⟨['f'], .parsed [recLate, recEarly], 0⟩]
          = [mkEntry ['f'] [recLate, recEarly] 0]
      ∧ ['a'] ∈ (([recLate, recEarly].map QueryResult.timestamp).filter
          fun u => !u.isEmpty)
      ∧ lexLe ['a'] ['b'] = true
      ∧ lexLe ['b'] ['a'] = false := by decide

/-- C9 (amended): the entry's timestamp is the first nonempty timestamp in
record order (`timestamps[0]`), not in general the minimum; it is `none`
exactly when no record carries a nonempty timestamp, and whenever the
timestamps appear in nondecreasing (chronological) order — as the analyzer
writes them — it is indeed the earliest timestamp in the file. -/
theorem C9_first_timestamp :
    ∀ (name : List Char) (data : List QueryResult) (mtime : Nat),
      List.Pairwise (fun a b => lexLe a b = true)
          ((data.map QueryResult.timestamp).filter fun u => !u.isEmpty) →
      (((mkEntry name data mtime).timestamp = none) ↔
          ((data.map QueryResult.timestamp).filter fun u => !u.isEmpty) = [])
        ∧ (∀ t, (mkEntry name data mtime).timestamp = some t →
            t ∈ ((data.map QueryResult.timestamp).filter fun u => !u.isEmpty)
              ∧ ∀ u ∈ (data.map QueryResult.timestamp).filter (fun u => !u.isEmpty),
                  lexLe t u = true) := by
  intro name data mtime hpair
  have hts : (mkEntry name data mtime).timestamp
      = ((data.map QueryResult.timestamp).filter fun u => !u.isEmpty).head? := rfl
  constructor
  · rw [hts]
    exact List.head?_eq_none_iff
  · intro t ht
    rw [hts] at ht
    cases hl : (data.map QueryResult.timestamp).filter (fun u => !u.isEmpty) with
    | nil => rw [hl] at ht; simp at ht
    | cons a rest =>
      rw [hl] at ht
      simp only [List.head?_cons, Option.some.injEq] at ht
      subst ht
      rw [hl] at hpair
      rw [List.pairwise_cons] at hpair
      constructor
      · exact List.mem_cons_self a rest
      · intro u hu
        rcases List.mem_cons.mp hu with rfl | hu'
        · exact lexLe_refl u
        · exact hpair.1 u hu'

theorem C9_witness :
    ['a'] ∈ (([recEarly, recLate].map QueryResult.timestamp).filter fun u => !u.isEmpty)
      ∧ ∀ u ∈ ([recEarly, recLate].map QueryResult.timestamp).filter (fun u => !u.isEmpty),
          lexLe ['a'] u = true :=
  (C9_first_timestamp ['f'] [recEarly, recLate] 0 (by decide)).2 ['a'] (by decide)
